import Mathlib

/-!
# Summary-mode geometry decoder of `examples/c++/tileinfo.cpp`

A shallow embedding of the geometry statistics loop of `main`
(source lines 96-151) and theorems about it.

* A feature's geometry is a `List Nat`; every element stands for one
  `uint32` of the repeated field `geometry`.
* `unsigned` counters are naturals kept below `2^32` by `inc32` / `add32`.
* The cursor `k` is the C++ `int k`; `f.geometry_size()` is `s.length`.
* `f.geometry(i)` is `geometryAt s i`; the state records every index that was
  passed to `f.geometry` in the field `reads`, so that reads at or beyond
  `geometry_size()` are visible.  The loop only uses the value of a read
  inside the `if (!length)` block, where `k < geometry_size()` holds.
* `throw std::runtime_error("Unknown command type: ...")` is `Outcome.thrown`.
* The local `g_type` (source line 107) is never used by the loop, and the
  enumerator `SEG_END` is never compared with; the geometry type of a feature
  therefore does not appear in the model.
-/

namespace TileInfo

/-! ## Constants of the source -/

/-- The enumerator `SEG_END = 0` of `enum CommandType`. -/
def SEG_END : Nat := 0

/-- The enumerator `SEG_MOVETO = 1` of `enum CommandType`. -/
def SEG_MOVETO : Nat := 1

/-- The enumerator `SEG_LINETO = 2` of `enum CommandType`. -/
def SEG_LINETO : Nat := 2

/-- The enumerator `SEG_CLOSE = (0x40 | 0x0f)` of `enum CommandType`. -/
def SEG_CLOSE : Nat := 0x40 ||| 0x0f

/-- The local constant `const int cmd_bits = 3`. -/
def cmd_bits : Nat := 3

/-- The mask `(1 << cmd_bits) - 1` used twice in the loop. -/
def cmd_mask : Nat := (1 <<< cmd_bits) - 1

/-- Increment of an `unsigned` (32 bit) variable: `x++`. -/
def inc32 (x : Nat) : Nat := (x + 1) % 4294967296

/-- Addition on `unsigned` (32 bit) variables: `x += y`. -/
def add32 (x y : Nat) : Nat := (x + y) % 4294967296

/-! ## Data -/

/-- The seven per-layer counters declared at source lines 96-102. -/
structure Stats where
  total_repeated : Nat
  num_commands : Nat
  num_move_to : Nat
  num_line_to : Nat
  num_close : Nat
  num_empty : Nat
  degenerate : Nat
deriving DecidableEq, Repr

/-- The counters as initialised for every layer (all `= 0`). -/
def Stats.zero : Stats := ⟨0, 0, 0, 0, 0, 0, 0⟩

/-- State of the innermost loop: the per-feature locals `k`, `cmd`, `length`,
`g_length`, the layer counters, and the list of indices passed to
`f.geometry(...)` so far (oldest first). -/
structure State where
  k : Nat
  cmd : Int
  length : Nat
  g_length : Nat
  stats : Stats
  reads : List Nat
deriving DecidableEq, Repr

/-- Result of running a piece of the program: normal completion, the
exception `"Unknown command type: cmd"`, or exhaustion of the iteration
budget of the model (shown below never to happen). -/
inductive Outcome (α : Type) where
  | done (a : α)
  | thrown (cmd : Int)
  | outOfFuel
deriving DecidableEq, Repr

/-- Apply a function to the value of a normal completion. -/
def Outcome.map {α β : Type} (f : α → β) : Outcome α → Outcome β
  | .done a => .done (f a)
  | .thrown c => .thrown c
  | .outOfFuel => .outOfFuel

/-! ## The loop body -/

/-- The accessor `f.geometry(i)`; inside the range it is the `i`-th element. -/
def geometryAt (s : List Nat) (i : Nat) : Nat := s.getD i 0

/-- Source lines 114-121: the block `if (!length) { ... }`. -/
def readCommand (s : List Nat) (st : State) : State :=
  if st.length = 0 then
    let cmd_length := geometryAt s st.k
    let length := cmd_length >>> cmd_bits
    { k := st.k + 1
      cmd := ((cmd_length &&& cmd_mask : Nat) : Int)
      length := length
      g_length := 0
      stats :=
        { st.stats with
          num_empty := if length ≤ 0 then inc32 st.stats.num_empty else st.stats.num_empty
          num_commands := inc32 st.stats.num_commands }
      reads := st.reads ++ [st.k] }
  else st

/-- Source lines 122-149: the block `if (length > 0) { ... }`. -/
def dispatch (st : State) : Outcome State :=
  if st.length > 0 then
    let length := st.length - 1
    if st.cmd = (SEG_MOVETO : Int) ∨ st.cmd = (SEG_LINETO : Int) then
      let stats :=
        if st.cmd = (SEG_MOVETO : Int) then
          { st.stats with num_move_to := inc32 st.stats.num_move_to }
        else if st.cmd = (SEG_LINETO : Int) then
          { st.stats with num_line_to := inc32 st.stats.num_line_to }
        else st.stats
      .done
        { k := st.k + 2
          cmd := st.cmd
          length := length
          g_length := inc32 st.g_length
          stats := stats
          reads := st.reads ++ [st.k, st.k + 1] }
    else if st.cmd = ((SEG_CLOSE &&& cmd_mask : Nat) : Int) then
      .done
        { st with
          length := length
          stats :=
            { st.stats with
              degenerate :=
                if st.g_length ≤ 2 then inc32 st.stats.degenerate else st.stats.degenerate
              num_close := inc32 st.stats.num_close } }
    else .thrown st.cmd
  else .done st

/-- One execution of the body of `for (int k = 0; k < f.geometry_size();)`. -/
def loopBody (s : List Nat) (st : State) : Outcome State :=
  dispatch (readCommand s st)

/-- The loop `for (...; k < f.geometry_size();)` run for at most `fuel`
iterations from state `st`. -/
def geometryLoop (s : List Nat) : Nat → State → Outcome State
  | 0, st => if st.k < s.length then .outOfFuel else .done st
  | fuel + 1, st =>
    if st.k < s.length then
      match loopBody s st with
      | .done st' => geometryLoop s fuel st'
      | .thrown c => .thrown c
      | .outOfFuel => .outOfFuel
    else .done st

/-- An upper bound on the number of iterations the loop still makes from
`st`: the pending repeat count plus, for every integer not yet consumed, its
repeat count plus one. -/
def loopFuel (s : List Nat) (st : State) : Nat :=
  st.length + ((s.drop st.k).map (fun c => (c >>> cmd_bits) + 1)).sum

/-- The loop run to its end from `st`. -/
def runLoop (s : List Nat) (st : State) : Outcome State :=
  geometryLoop s (loopFuel s st) st

/-- The locals at entry of the innermost loop (source lines 108-112):
`cmd = -1`, `length = 0`, `g_length = 0`, `k = 0`. -/
def initState (stats : Stats) : State :=
  { k := 0, cmd := -1, length := 0, g_length := 0, stats := stats, reads := [] }

/-- Body of the feature loop (source lines 105-150) up to the end of the
innermost loop, returning the final state of that loop. -/
def featureState (s : List Nat) (stats : Stats) : Outcome State :=
  runLoop s (initState { stats with total_repeated := add32 stats.total_repeated s.length })

/-- Body of the feature loop as a transformer of the layer counters. -/
def featureBody (s : List Nat) (stats : Stats) : Outcome Stats :=
  (featureState s stats).map State.stats

/-- The loop over the features of one layer (source lines 103-151). -/
def featuresLoop : List (List Nat) → Stats → Outcome Stats
  | [], stats => .done stats
  | f :: fs, stats =>
    match featureBody f stats with
    | .done stats' => featuresLoop fs stats'
    | .thrown c => .thrown c
    | .outOfFuel => .outOfFuel

/-- Decoding one geometry stream alone, from the initial decoder state and
zero counters. -/
def decodeFeature (s : List Nat) : Outcome Stats :=
  featureBody s Stats.zero

/-- The final loop state of decoding one geometry stream alone. -/
def decodeFeatureState (s : List Nat) : Outcome State :=
  featureState s Stats.zero

/-- The geometry summary of one layer (source lines 96-151): fresh counters,
then the loop over the features. -/
def decodeLayer (features : List (List Nat)) : Outcome Stats :=
  featuresLoop features Stats.zero

/-- The loop over the layers of the tile in summary mode (source lines
87-160): the list of the per-layer summaries, unless a layer throws. -/
def summaryLoop : List (List (List Nat)) → Outcome (List Stats)
  | [] => .done []
  | layer :: layers =>
    match decodeLayer layer with
    | .done r => (summaryLoop layers).map (fun rs => r :: rs)
    | .thrown c => .thrown c
    | .outOfFuel => .outOfFuel

/-- The stream length fits the `int` returned by `f.geometry_size()`. -/
def IntSized (s : List Nat) : Prop := s.length < 2147483648

instance (s : List Nat) : Decidable (IntSized s) := by
  unfold IntSized; infer_instance

/-! ## Definitions used in the statements and proofs -/

/-- Weight of the integers from index `k` on, as used by `loopFuel`. -/
def restWeight (s : List Nat) (k : Nat) : Nat :=
  ((s.drop k).map (fun c => (c >>> cmd_bits) + 1)).sum

/-- The state in which the innermost loop is entered when the stream `s` is
decoded alone. -/
def startState (s : List Nat) : State :=
  initState { Stats.zero with total_repeated := add32 Stats.zero.total_repeated s.length }

/-- The states at the head of the loop (before the test `k < geometry_size()`)
while the stream `s` is decoded alone. -/
inductive Reach (s : List Nat) : State → Prop where
  | start : Reach s (startState s)
  | next (st st' : State) : Reach s st → st.k < s.length → loopBody s st = .done st' →
      Reach s st'

/-- Index `i` holds an integer that the decoder reads as a command integer:
some iteration starts with the cursor at `i` and no repetition pending. -/
def ReadsCommandAt (s : List Nat) (i : Nat) : Prop :=
  ∃ st, Reach s st ∧ st.k = i ∧ i < s.length ∧ st.length = 0

/-- Loop invariant: the two counters agree, and outside MoveTo/LineTo the
ring point count is zero. -/
def CloseInv (st : State) : Prop :=
  st.stats.degenerate = st.stats.num_close ∧
    (st.cmd ≠ 1 → st.cmd ≠ 2 → st.g_length = 0)

/-- Componentwise 32-bit sum of two counter records. -/
def Stats.add (a b : Stats) : Stats :=
  { total_repeated := add32 a.total_repeated b.total_repeated
    num_commands := add32 a.num_commands b.num_commands
    num_move_to := add32 a.num_move_to b.num_move_to
    num_line_to := add32 a.num_line_to b.num_line_to
    num_close := add32 a.num_close b.num_close
    num_empty := add32 a.num_empty b.num_empty
    degenerate := add32 a.degenerate b.degenerate }

/-- Every counter is a value of the type `unsigned`. -/
def Stats.Bounded (a : Stats) : Prop :=
  a.total_repeated < 4294967296 ∧ a.num_commands < 4294967296 ∧
  a.num_move_to < 4294967296 ∧ a.num_line_to < 4294967296 ∧
  a.num_close < 4294967296 ∧ a.num_empty < 4294967296 ∧ a.degenerate < 4294967296

/-- The loop state `st` with the counters offset by `a`. -/
def State.offset (a : Stats) (st : State) : State :=
  { st with stats := a.add st.stats }

/-- The counters obtained by decoding the stream `s` alone (zero counters if
that decoding does not complete). -/
def featureStats (s : List Nat) : Stats :=
  match decodeFeature s with
  | .done r => r
  | .thrown _ => Stats.zero
  | .outOfFuel => Stats.zero

/-- Componentwise sum, modulo `2^32`, of a list of counter records. -/
def sumStats (rs : List Stats) : Stats :=
  { total_repeated := (rs.map Stats.total_repeated).sum % 4294967296
    num_commands := (rs.map Stats.num_commands).sum % 4294967296
    num_move_to := (rs.map Stats.num_move_to).sum % 4294967296
    num_line_to := (rs.map Stats.num_line_to).sum % 4294967296
    num_close := (rs.map Stats.num_close).sum % 4294967296
    num_empty := (rs.map Stats.num_empty).sum % 4294967296
    degenerate := (rs.map Stats.degenerate).sum % 4294967296 }

/-- Whether a run completed normally. -/
def Outcome.isDone {α : Type} : Outcome α → Bool
  | .done _ => true
  | .thrown _ => false
  | .outOfFuel => false

/-- The stream made of one block `[9, x, y, 15]` (MoveTo repeat 1, one
coordinate pair, ClosePath repeat 1) per pair of `ps`. -/
def moveClosePairs : List (Nat × Nat) → List Nat
  | [] => []
  | p :: ps => 9 :: p.1 :: p.2 :: 15 :: moveClosePairs ps

/-- The counters `a` after `m` further MoveTo+ClosePath blocks. -/
def pairStats (m : Nat) (a : Stats) : Stats :=
  { a with
    num_commands := add32 a.num_commands (2 * m)
    num_move_to := add32 a.num_move_to m
    num_close := add32 a.num_close m
    degenerate := add32 a.degenerate m }

/-- The loop state two iterations after `st`, when these iterations process
one block `[9, x, y, 15]` starting at the cursor. -/
def blockExit (st : State) : State :=
  { k := st.k + 1 + 2 + 1, cmd := 7, length := 0, g_length := 0
    stats := { st.stats with
      num_commands := inc32 (inc32 st.stats.num_commands)
      num_move_to := inc32 st.stats.num_move_to
      num_close := inc32 st.stats.num_close
      degenerate := inc32 st.stats.degenerate }
    reads := st.reads ++ [st.k] ++ [st.k + 1, st.k + 1 + 1] ++ [st.k + 1 + 2] }

/-- Loop invariant of decoding a stream alone: the cursor equals the number
of integers accounted for by the counters, every index below the cursor has
been read and no other, and the counters are bounded by the cursor. -/
def CountInv (s : List Nat) (st : State) : Prop :=
  st.k ≤ s.length + 2 ∧
  2 * st.stats.num_move_to + 2 * st.stats.num_line_to + st.stats.num_commands = st.k ∧
  st.stats.num_empty ≤ st.stats.num_commands ∧
  st.stats.total_repeated = s.length ∧
  st.reads = List.range st.k

/-- Loop invariant: while repetitions are pending, the current command id is
one of the three recognised ids. -/
def CmdInv (st : State) : Prop :=
  st.length ≠ 0 → st.cmd = 1 ∨ st.cmd = 2 ∨ st.cmd = 7

/-- The counters `a` with total_repeated, num_commands and num_empty
incremented as `unsigned` variables. -/
def bumpEmpty (a : Stats) : Stats :=
  { a with
    total_repeated := inc32 a.total_repeated
    num_commands := inc32 a.num_commands
    num_empty := inc32 a.num_empty }

/-- The counters `a` with total_repeated, num_commands and num_empty one
higher. -/
def oneMoreEmpty (a : Stats) : Stats :=
  { a with
    total_repeated := a.total_repeated + 1
    num_commands := a.num_commands + 1
    num_empty := a.num_empty + 1 }

/-- Relation between a loop state `st` on the stream `c :: s` and a loop state
`st'` on the stream `s`: same position relative to `s`, same pending work, and
one more empty command counted in `st`. -/
def ShiftRel (st st' : State) : Prop :=
  st.k = st'.k + 1 ∧ st.length = st'.length ∧ st.g_length = st'.g_length ∧
    (st'.length ≠ 0 → st.cmd = st'.cmd) ∧ st.stats = bumpEmpty st'.stats

/-- The relation `ShiftRel` lifted to outcomes. -/
def OutcomeRel : Outcome State → Outcome State → Prop
  | .done st, .done st' => ShiftRel st st'
  | .thrown c, .thrown c' => c = c'
  | _, _ => False

end TileInfo

namespace TileInfo

/-! ## Arithmetic of the command integer -/

theorem cmd_mask_eq : cmd_mask = 7 := by decide

theorem close_id_eq : ((SEG_CLOSE &&& cmd_mask : Nat) : Int) = 7 := by decide

theorem and_cmd_mask (c : Nat) : c &&& cmd_mask = c % 8 := by
  rw [cmd_mask_eq]
  exact Nat.and_pow_two_sub_one_eq_mod c 3

theorem shift_cmd_bits (c : Nat) : c >>> cmd_bits = c / 8 := by
  simp [cmd_bits, Nat.shiftRight_eq_div_pow]

/-! ## Termination of the loop -/

theorem loopFuel_eq (s : List Nat) (st : State) :
    loopFuel s st = st.length + restWeight s st.k := rfl

theorem restWeight_of_le (s : List Nat) (k : Nat) (h : s.length ≤ k) : restWeight s k = 0 := by
  simp [restWeight, List.drop_eq_nil_of_le h]

theorem restWeight_succ (s : List Nat) (k : Nat) (h : k < s.length) :
    restWeight s k = (geometryAt s k >>> cmd_bits) + 1 + restWeight s (k + 1) := by
  unfold restWeight geometryAt
  rw [List.drop_eq_getElem_cons h, List.map_cons, List.sum_cons,
    List.getD_eq_getElem?_getD, List.getElem?_eq_getElem h, Option.getD_some]

theorem restWeight_succ_le (s : List Nat) (k : Nat) : restWeight s (k + 1) ≤ restWeight s k := by
  by_cases h : k < s.length
  · rw [restWeight_succ s k h]
    generalize geometryAt s k >>> cmd_bits = r
    omega
  · rw [restWeight_of_le s (k + 1) (by omega)]; omega

theorem restWeight_anti (s : List Nat) (k d : Nat) : restWeight s (k + d) ≤ restWeight s k := by
  induction d with
  | zero => exact Nat.le_refl _
  | succ d ih => exact Nat.le_trans (restWeight_succ_le s (k + d)) ih

theorem restWeight_pos (s : List Nat) (k : Nat) (h : k < s.length) : 0 < restWeight s k := by
  rw [restWeight_succ s k h]
  generalize geometryAt s k >>> cmd_bits = r
  omega

theorem loopBody_ne_outOfFuel (s : List Nat) (st : State) : loopBody s st ≠ .outOfFuel := by
  unfold loopBody dispatch
  split_ifs <;> simp

theorem loopBody_fuel (s : List Nat) (st st' : State) (hk : st.k < s.length)
    (h : loopBody s st = .done st') : loopFuel s st' < loopFuel s st := by
  have h1 := restWeight_succ s st.k hk
  have h2 := restWeight_anti s (st.k + 1) 2
  have h3 := restWeight_anti s st.k 2
  simp only [loopBody, dispatch, readCommand] at h
  simp only [loopFuel_eq]
  generalize geometryAt s st.k >>> cmd_bits = r at *
  split_ifs at h <;> simp only [Outcome.done.injEq] at h <;> subst h <;>
    simp only [] at * <;> omega

theorem geometryLoop_succ (s : List Nat) (fuel : Nat) :
    ∀ st : State, loopFuel s st ≤ fuel →
      geometryLoop s (fuel + 1) st = geometryLoop s fuel st := by
  induction fuel with
  | zero =>
    intro st h
    have hk : ¬ st.k < s.length := by
      intro hk
      have := restWeight_pos s st.k hk
      rw [loopFuel_eq] at h
      omega
    simp [geometryLoop, hk]
  | succ n ih =>
    intro st h
    rw [geometryLoop, geometryLoop]
    by_cases hk : st.k < s.length
    · simp only [hk, if_true]
      cases hb : loopBody s st with
      | done st' =>
        have := loopBody_fuel s st st' hk hb
        exact ih st' (by omega)
      | thrown c => rfl
      | outOfFuel => rfl
    · simp [hk]

theorem geometryLoop_of_le (s : List Nat) (st : State) (fuel : Nat)
    (h : loopFuel s st ≤ fuel) : geometryLoop s fuel st = runLoop s st := by
  induction fuel with
  | zero =>
    have : loopFuel s st = 0 := by omega
    rw [runLoop, this]
  | succ n ih =>
    by_cases hn : loopFuel s st ≤ n
    · rw [geometryLoop_succ s n st hn]; exact ih hn
    · have : loopFuel s st = n + 1 := by omega
      rw [runLoop, this]

/-- The defining equation of the loop, free of the iteration budget. -/
theorem runLoop_eq (s : List Nat) (st : State) :
    runLoop s st =
      if st.k < s.length then
        match loopBody s st with
        | .done st' => runLoop s st'
        | .thrown c => .thrown c
        | .outOfFuel => .outOfFuel
      else .done st := by
  by_cases hk : st.k < s.length
  · simp only [hk, if_true]
    have hpos : 0 < loopFuel s st := by
      have := restWeight_pos s st.k hk
      rw [loopFuel_eq]; omega
    obtain ⟨n, hn⟩ : ∃ n, loopFuel s st = n + 1 := ⟨loopFuel s st - 1, by omega⟩
    conv_lhs => rw [runLoop, hn, geometryLoop]
    simp only [hk, if_true]
    cases hb : loopBody s st with
    | done st' =>
      have := loopBody_fuel s st st' hk hb
      exact geometryLoop_of_le s st' n (by omega)
    | thrown c => rfl
    | outOfFuel => rfl
  · simp only [hk, if_false]
    rw [runLoop]
    cases loopFuel s st <;> simp [geometryLoop, hk]

theorem runLoop_of_ge (s : List Nat) (st : State) (h : s.length ≤ st.k) :
    runLoop s st = .done st := by
  rw [runLoop_eq, if_neg (by omega)]

theorem runLoop_step (s : List Nat) (st st' : State) (hk : st.k < s.length)
    (hb : loopBody s st = .done st') : runLoop s st = runLoop s st' := by
  rw [runLoop_eq s st, if_pos hk, hb]

theorem runLoop_throw (s : List Nat) (st : State) (c : Int) (hk : st.k < s.length)
    (hb : loopBody s st = .thrown c) : runLoop s st = .thrown c := by
  rw [runLoop_eq s st, if_pos hk, hb]

/-- Induction along the iterations of the loop. -/
theorem loop_induction (s : List Nat) (P : State → Prop)
    (step : ∀ st, (∀ st', st.k < s.length → loopBody s st = .done st' → P st') → P st) :
    ∀ st, P st := by
  have key : ∀ n st, loopFuel s st ≤ n → P st := by
    intro n
    induction n with
    | zero =>
      intro st h
      apply step
      intro st' hk hb
      have := loopBody_fuel s st st' hk hb
      omega
    | succ n ih =>
      intro st h
      apply step
      intro st' hk hb
      have := loopBody_fuel s st st' hk hb
      exact ih st' (by omega)
  intro st
  exact key _ st (Nat.le_refl _)

/-- The loop always runs to its end within the iteration budget. -/
theorem runLoop_ne_outOfFuel (s : List Nat) : ∀ st, runLoop s st ≠ .outOfFuel := by
  apply loop_induction
  intro st ih
  rw [runLoop_eq]
  by_cases hk : st.k < s.length
  · simp only [hk, if_true]
    cases hb : loopBody s st with
    | done st' => exact ih st' hk hb
    | thrown c => simp
    | outOfFuel => exact absurd hb (loopBody_ne_outOfFuel s st)
  · simp [hk]

/-- A property of loop states that every iteration preserves holds at the
exit of the loop. -/
theorem runLoop_preserves (s : List Nat) (P : State → Prop)
    (hP : ∀ st st', st.k < s.length → P st → loopBody s st = .done st' → P st') :
    ∀ st, ∀ st', P st → runLoop s st = .done st' → P st' := by
  apply loop_induction s
  intro st ih st' hst hrun
  rw [runLoop_eq] at hrun
  by_cases hk : st.k < s.length
  · simp only [hk, if_true] at hrun
    cases hb : loopBody s st with
    | done st1 =>
      rw [hb] at hrun
      exact ih st1 hk hb st' (hP st st1 hk hst hb) hrun
    | thrown c => rw [hb] at hrun; cases hrun
    | outOfFuel => rw [hb] at hrun; cases hrun
  · simp only [hk, if_false, Outcome.done.injEq] at hrun
    subst hrun
    exact hst

/-- Decoding one stream never exhausts the iteration budget: the model of
the loop is total. -/
theorem featureBody_ne_outOfFuel (s : List Nat) (stats : Stats) :
    featureBody s stats ≠ .outOfFuel := by
  unfold featureBody featureState
  intro h
  cases hrun : runLoop s (initState { stats with
      total_repeated := add32 stats.total_repeated s.length }) with
  | done st => rw [hrun] at h; cases h
  | thrown c => rw [hrun] at h; cases h
  | outOfFuel => exact runLoop_ne_outOfFuel s _ hrun

theorem featuresLoop_ne_outOfFuel (fs : List (List Nat)) :
    ∀ stats : Stats, featuresLoop fs stats ≠ .outOfFuel := by
  induction fs with
  | nil => intro stats h; cases h
  | cons f fs ih =>
    intro stats h
    rw [featuresLoop] at h
    cases hb : featureBody f stats with
    | done stats' => rw [hb] at h; exact ih stats' h
    | thrown c => rw [hb] at h; cases h
    | outOfFuel => exact featureBody_ne_outOfFuel f stats hb

/-! ## Reachable loop states -/

theorem decodeFeatureState_eq (s : List Nat) :
    decodeFeatureState s = runLoop s (startState s) := rfl

theorem decodeFeature_eq (s : List Nat) :
    decodeFeature s = (decodeFeatureState s).map State.stats := rfl

theorem runLoop_of_reach (s : List Nat) (st : State) (h : Reach s st) :
    runLoop s st = decodeFeatureState s := by
  induction h with
  | start => rfl
  | next st st' _ hk hb ih => rw [← ih, runLoop_step s st st' hk hb]

/-- A property of loop states that holds at loop entry and that every
iteration preserves holds in every reachable state. -/
theorem reach_preserves (s : List Nat) (P : State → Prop) (h0 : P (startState s))
    (hP : ∀ st st', st.k < s.length → P st → loopBody s st = .done st' → P st')
    (st : State) (h : Reach s st) : P st := by
  induction h with
  | start => exact h0
  | next st st' _ hk hb ih => exact hP st st' hk ih hb

/-! ## The ring point count at a ClosePath repetition -/

theorem loopBody_closeInv (s : List Nat) (st st' : State) (hinv : CloseInv st)
    (h : loopBody s st = .done st') : CloseInv st' := by
  obtain ⟨h1, h2⟩ := hinv
  simp only [loopBody, dispatch, readCommand, SEG_MOVETO, SEG_LINETO] at h
  unfold CloseInv
  split_ifs at h <;> simp only [Outcome.done.injEq] at h <;> subst h <;> simp_all

/-! ## The counters do not influence the control flow -/

theorem add32_inc32 (a b : Nat) : add32 a (inc32 b) = inc32 (add32 a b) := by
  unfold add32 inc32; omega

theorem add32_lt (a b : Nat) : add32 a b < 4294967296 := by
  unfold add32; omega

theorem Stats.add_bounded (a b : Stats) : (a.add b).Bounded := by
  simp only [Stats.Bounded, Stats.add, add32_lt, and_self]

theorem Stats.zero_bounded : Stats.zero.Bounded := by
  simp [Stats.Bounded, Stats.zero]

theorem loopBody_offset (s : List Nat) (a : Stats) (st : State) :
    loopBody s (st.offset a) = (loopBody s st).map (State.offset a) := by
  simp only [loopBody, dispatch, readCommand, State.offset, Stats.add]
  split_ifs <;> simp only [Outcome.map, State.offset, Stats.add, add32_inc32]

theorem runLoop_offset (s : List Nat) (a : Stats) :
    ∀ st : State, runLoop s (st.offset a) = (runLoop s st).map (State.offset a) := by
  apply loop_induction s
  intro st ih
  rw [runLoop_eq s st, runLoop_eq s (st.offset a), loopBody_offset]
  have hk : (st.offset a).k = st.k := rfl
  rw [hk]
  by_cases h : st.k < s.length
  · simp only [h, if_true]
    cases hb : loopBody s st with
    | done st' => simp only [Outcome.map]; exact ih st' h hb
    | thrown c => rfl
    | outOfFuel => rfl
  · simp only [h, if_false, Outcome.map]

theorem featureBody_offset (s : List Nat) (a : Stats) (ha : a.Bounded) :
    featureBody s a = (decodeFeature s).map a.add := by
  obtain ⟨h1, h2, h3, h4, h5, h6, h7⟩ := ha
  have hs : initState { a with total_repeated := add32 a.total_repeated s.length } =
      (startState s).offset a := by
    simp only [initState, startState, State.offset, Stats.add, Stats.zero, add32,
      State.mk.injEq, Stats.mk.injEq, true_and, and_true]
    refine ⟨?_, ?_, ?_, ?_, ?_, ?_, ?_⟩ <;> omega
  unfold decodeFeature featureBody featureState
  rw [hs, runLoop_offset]
  show _ = Outcome.map a.add (Outcome.map State.stats (runLoop s (startState s)))
  cases runLoop s (startState s) <;> rfl

/-! ## A layer is the sum of its features -/

theorem featuresLoop_sum (fs : List (List Nat)) :
    ∀ acc : Stats, acc.Bounded → (∀ f ∈ fs, ∃ r, decodeFeature f = .done r) →
      featuresLoop fs acc = .done (acc.add (sumStats (fs.map featureStats))) := by
  induction fs with
  | nil =>
    intro acc hacc _
    obtain ⟨h1, h2, h3, h4, h5, h6, h7⟩ := hacc
    simp only [featuresLoop, Stats.add, sumStats, List.map_nil, List.sum_nil, add32,
      Outcome.done.injEq]
    cases acc
    simp only [Stats.mk.injEq] at *
    refine ⟨?_, ?_, ?_, ?_, ?_, ?_, ?_⟩ <;> omega
  | cons f fs ih =>
    intro acc hacc hall
    obtain ⟨r, hr⟩ := hall f (List.mem_cons_self f fs)
    have hrest : ∀ g ∈ fs, ∃ r, decodeFeature g = .done r :=
      fun g hg => hall g (List.mem_cons_of_mem f hg)
    have hf : featureStats f = r := by simp only [featureStats, hr]
    rw [featuresLoop, featureBody_offset f acc hacc, hr]
    simp only [Outcome.map]
    rw [ih (acc.add r) (Stats.add_bounded acc r) hrest]
    simp only [Stats.add, sumStats, List.map_cons, List.sum_cons, hf, add32,
      Outcome.done.injEq, Stats.mk.injEq]
    refine ⟨?_, ?_, ?_, ?_, ?_, ?_, ?_⟩ <;> omega

theorem decodeLayer_sum (fs : List (List Nat))
    (hall : ∀ f ∈ fs, ∃ r, decodeFeature f = .done r) :
    decodeLayer fs = .done (sumStats (fs.map featureStats)) := by
  rw [decodeLayer, featuresLoop_sum fs Stats.zero Stats.zero_bounded hall]
  simp only [Stats.add, sumStats, Stats.zero, add32, Outcome.done.injEq, Stats.mk.injEq]
  refine ⟨?_, ?_, ?_, ?_, ?_, ?_, ?_⟩ <;> omega

theorem loopBody_total_repeated (s : List Nat) (st st' : State)
    (h : loopBody s st = .done st') : st'.stats.total_repeated = st.stats.total_repeated := by
  simp only [loopBody, dispatch, readCommand] at h
  split_ifs at h <;> simp only [Outcome.done.injEq] at h <;> subst h <;> rfl

theorem decodeFeature_total_repeated (s : List Nat) (r : Stats)
    (h : decodeFeature s = .done r) : r.total_repeated = s.length % 4294967296 := by
  rw [decodeFeature_eq, decodeFeatureState_eq] at h
  cases hrun : runLoop s (startState s) with
  | done st' =>
    rw [hrun] at h
    simp only [Outcome.map, Outcome.done.injEq] at h
    subst h
    have := runLoop_preserves s (fun st => st.stats.total_repeated = s.length % 4294967296)
      (fun st st' _ hst hb => by
        show st'.stats.total_repeated = _
        rw [loopBody_total_repeated s st st' hb]; exact hst)
      (startState s) st' (by simp [startState, initState, add32, Stats.zero]) hrun
    exact this
  | thrown c => rw [hrun] at h; cases h
  | outOfFuel => rw [hrun] at h; cases h

theorem sumStats_total_repeated (fs : List (List Nat))
    (hall : ∀ f ∈ fs, ∃ r, decodeFeature f = .done r) :
    (sumStats (fs.map featureStats)).total_repeated =
      (fs.map List.length).sum % 4294967296 := by
  induction fs with
  | nil => rfl
  | cons f fs ih =>
    obtain ⟨r, hr⟩ := hall f (List.mem_cons_self f fs)
    have hf : featureStats f = r := by simp only [featureStats, hr]
    have h1 := decodeFeature_total_repeated f r hr
    have h2 := ih (fun g hg => hall g (List.mem_cons_of_mem f hg))
    simp only [sumStats, List.map_cons, List.sum_cons, hf] at h2 ⊢
    omega

theorem summaryLoop_sum (layers : List (List (List Nat)))
    (hall : ∀ fs ∈ layers, ∀ f ∈ fs, ∃ r, decodeFeature f = .done r) :
    summaryLoop layers = .done (layers.map (fun fs => sumStats (fs.map featureStats))) := by
  induction layers with
  | nil => rfl
  | cons fs layers ih =>
    rw [summaryLoop, decodeLayer_sum fs (hall fs (List.mem_cons_self fs layers))]
    simp only [ih (fun gs hg => hall gs (List.mem_cons_of_mem fs hg)), Outcome.map,
      List.map_cons]

theorem Outcome.exists_of_isDone {α : Type} (o : Outcome α) (h : o.isDone = true) :
    ∃ a, o = .done a := by
  cases o with
  | done a => exact ⟨a, rfl⟩
  | thrown c => cases h
  | outOfFuel => cases h

theorem all_decode_of_check (layers : List (List (List Nat)))
    (h : layers.all (fun fs => fs.all (fun f => (decodeFeature f).isDone)) = true) :
    ∀ fs ∈ layers, ∀ f ∈ fs, ∃ r, decodeFeature f = .done r := by
  intro fs hfs f hf
  rw [List.all_eq_true] at h
  have h1 := h fs hfs
  rw [List.all_eq_true] at h1
  exact Outcome.exists_of_isDone _ (h1 f hf)

theorem featuresLoop_closeInv (fs : List (List Nat)) :
    ∀ acc r : Stats, acc.degenerate = acc.num_close → featuresLoop fs acc = .done r →
      r.degenerate = r.num_close := by
  induction fs with
  | nil =>
    intro acc r h hr
    simp only [featuresLoop, Outcome.done.injEq] at hr
    subst hr; exact h
  | cons f fs ih =>
    intro acc r h hr
    rw [featuresLoop] at hr
    cases hb : featureBody f acc with
    | done acc' =>
      rw [hb] at hr
      refine ih acc' r ?_ hr
      unfold featureBody featureState at hb
      cases hrun : runLoop f (initState { acc with
          total_repeated := add32 acc.total_repeated f.length }) with
      | done st' =>
        rw [hrun] at hb
        simp only [Outcome.map, Outcome.done.injEq] at hb
        subst hb
        exact (runLoop_preserves f CloseInv
          (fun st st' _ hst hb => loopBody_closeInv f st st' hst hb) _ st'
          ⟨h, fun _ _ => rfl⟩ hrun).1
      | thrown c => rw [hrun] at hb; cases hb
      | outOfFuel => rw [hrun] at hb; cases hb
    | thrown c => rw [hb] at hr; cases hr
    | outOfFuel => rw [hb] at hr; cases hr

theorem reach_closeInv (s : List Nat) (st : State) (h : Reach s st) : CloseInv st :=
  reach_preserves s CloseInv ⟨rfl, fun _ _ => rfl⟩
    (fun st st' _ hst hb => loopBody_closeInv s st st' hst hb) st h

theorem decodeLayer_single (s : List Nat) : decodeLayer [s] = decodeFeature s := by
  unfold decodeLayer decodeFeature
  rw [featuresLoop]
  cases featureBody s Stats.zero <;> rfl

/-! ## Streams of MoveTo+ClosePath blocks -/

theorem geometryAt_append (pre rest : List Nat) (i : Nat) :
    geometryAt (pre ++ rest) (pre.length + i) = geometryAt rest i := by
  unfold geometryAt
  simp [List.getD_eq_getElem?_getD, List.getElem?_append_right]

theorem loopBody_moveTo_one (s : List Nat) (st : State) (h0 : st.length = 0)
    (hc : geometryAt s st.k = 9) :
    loopBody s st = .done
      { k := st.k + 1 + 2, cmd := 1, length := 0, g_length := 1
        stats := { st.stats with
          num_commands := inc32 st.stats.num_commands
          num_move_to := inc32 st.stats.num_move_to }
        reads := st.reads ++ [st.k] ++ [st.k + 1, st.k + 1 + 1] } := by
  have e1 : (9 : Nat) >>> cmd_bits = 1 := by decide
  have e2 : (9 : Nat) &&& cmd_mask = 1 := by decide
  simp [loopBody, readCommand, dispatch, h0, hc, e1, e2, SEG_MOVETO, inc32]

theorem loopBody_close_one (s : List Nat) (st : State) (h0 : st.length = 0)
    (hc : geometryAt s st.k = 15) :
    loopBody s st = .done
      { k := st.k + 1, cmd := 7, length := 0, g_length := 0
        stats := { st.stats with
          num_commands := inc32 st.stats.num_commands
          num_close := inc32 st.stats.num_close
          degenerate := inc32 st.stats.degenerate }
        reads := st.reads ++ [st.k] } := by
  have e1 : (15 : Nat) >>> cmd_bits = 1 := by decide
  have e2 : (15 : Nat) &&& cmd_mask = 7 := by decide
  have e3 : SEG_CLOSE &&& cmd_mask = 7 := by decide
  simp [loopBody, readCommand, dispatch, h0, hc, e1, e2, e3, SEG_MOVETO, SEG_LINETO]

theorem runLoop_block (pre rest : List Nat) (x y : Nat) (st : State)
    (hk : st.k = pre.length) (h0 : st.length = 0) :
    runLoop (pre ++ 9 :: x :: y :: 15 :: rest) st =
      runLoop (pre ++ 9 :: x :: y :: 15 :: rest) (blockExit st) := by
  have hlen : (pre ++ 9 :: x :: y :: 15 :: rest).length = pre.length + 4 + rest.length := by
    simp only [List.length_append, List.length_cons]; omega
  have g0 : geometryAt (pre ++ 9 :: x :: y :: 15 :: rest) st.k = 9 := by
    rw [hk, ← Nat.add_zero pre.length, geometryAt_append]; rfl
  have hb1 := loopBody_moveTo_one _ st h0 g0
  have g3 : geometryAt (pre ++ 9 :: x :: y :: 15 :: rest) (st.k + 1 + 2) = 15 := by
    rw [hk, Nat.add_assoc, geometryAt_append]; rfl
  have hb2 := loopBody_close_one (pre ++ 9 :: x :: y :: 15 :: rest)
    { k := st.k + 1 + 2, cmd := 1, length := 0, g_length := 1
      stats := { st.stats with
        num_commands := inc32 st.stats.num_commands
        num_move_to := inc32 st.stats.num_move_to }
      reads := st.reads ++ [st.k] ++ [st.k + 1, st.k + 1 + 1] } rfl g3
  rw [runLoop_step _ _ _ (by rw [hlen]; omega) hb1,
    runLoop_step _ _ _ (by rw [hlen]; simp only []; omega) hb2]
  rfl

theorem runLoop_moveClosePairs (ps : List (Nat × Nat)) :
    ∀ (pre : List Nat) (st : State), st.k = pre.length → st.length = 0 →
      st.stats.Bounded →
      ∃ st', runLoop (pre ++ moveClosePairs ps) st = .done st' ∧
        st'.stats = pairStats ps.length st.stats := by
  induction ps with
  | nil =>
    intro pre st hk _ hb
    refine ⟨st, runLoop_of_ge _ _ (by simp [moveClosePairs, hk]), ?_⟩
    obtain ⟨h1, h2, h3, h4, h5, h6, h7⟩ := hb
    cases hs : st.stats
    rw [hs] at h1 h2 h3 h4 h5 h6 h7
    simp only [pairStats, add32, List.length_nil, Stats.mk.injEq] at *
    refine ⟨trivial, ?_, ?_, trivial, ?_, trivial, ?_⟩ <;> omega
  | cons p ps ih =>
    intro pre st hk h0 hb
    have hs : pre ++ 9 :: p.1 :: p.2 :: 15 :: moveClosePairs ps =
        (pre ++ [9, p.1, p.2, 15]) ++ moveClosePairs ps := by
      simp
    obtain ⟨st', hrun, hst⟩ := ih (pre ++ [9, p.1, p.2, 15]) (blockExit st)
      (by simp [blockExit, hk]) rfl
      (by
        obtain ⟨h1, h2, h3, h4, h5, h6, h7⟩ := hb
        simp only [Stats.Bounded, blockExit, inc32]
        refine ⟨h1, ?_, ?_, h4, ?_, h6, ?_⟩ <;> omega)
    refine ⟨st', ?_, ?_⟩
    · rw [moveClosePairs, runLoop_block pre _ p.1 p.2 st hk h0, hs]
      exact hrun
    · rw [hst]
      simp only [pairStats, blockExit, add32, inc32, List.length_cons, Stats.mk.injEq]
      refine ⟨trivial, ?_, ?_, trivial, ?_, trivial, ?_⟩ <;> omega

/-! ## Counting the integers consumed -/

theorem loopBody_countInv (s : List Nat) (hs : IntSized s) (st st' : State)
    (hk : st.k < s.length) (hinv : CountInv s st) (h : loopBody s st = .done st') :
    CountInv s st' := by
  obtain ⟨hb, h1, h2, h3, h4⟩ := hinv
  unfold IntSized at hs
  simp only [loopBody, dispatch, readCommand, SEG_MOVETO, SEG_LINETO] at h
  unfold CountInv
  split_ifs at h <;> simp only [Outcome.done.injEq] at h <;> subst h <;>
    simp only [inc32, h4, List.range_succ, List.append_assoc, List.singleton_append,
      List.cons_append, List.nil_append, and_true] <;>
    refine ⟨?_, ?_, ?_, ?_⟩ <;> omega

theorem startState_countInv (s : List Nat) (hs : IntSized s) : CountInv s (startState s) := by
  unfold IntSized at hs
  simp only [CountInv, startState, initState, Stats.zero, add32, List.range_zero, and_true]
  refine ⟨Nat.zero_le _, trivial, Nat.le_refl _, ?_⟩
  omega

theorem decodeFeatureState_countInv (s : List Nat) (hs : IntSized s) (st : State)
    (h : decodeFeatureState s = .done st) : CountInv s st :=
  runLoop_preserves s (CountInv s)
    (fun st st' hk hst hb => loopBody_countInv s hs st st' hk hst hb)
    (startState s) st (startState_countInv s hs) h

theorem runLoop_exit (s : List Nat) :
    ∀ st st' : State, runLoop s st = .done st' → s.length ≤ st'.k := by
  apply loop_induction s
  intro st ih st' hrun
  rw [runLoop_eq] at hrun
  by_cases hk : st.k < s.length
  · simp only [hk, if_true] at hrun
    cases hb : loopBody s st with
    | done st1 => rw [hb] at hrun; exact ih st1 hk hb st' hrun
    | thrown c => rw [hb] at hrun; cases hrun
    | outOfFuel => rw [hb] at hrun; cases hrun
  · simp only [hk, if_false, Outcome.done.injEq] at hrun
    subst hrun
    omega

/-! ## When the loop throws -/

theorem loopBody_cmdInv (s : List Nat) (st st' : State) (h : loopBody s st = .done st') :
    CmdInv st' := by
  have e3 : ((SEG_CLOSE &&& cmd_mask : Nat) : Int) = 7 := close_id_eq
  simp only [loopBody, dispatch, readCommand, SEG_MOVETO, SEG_LINETO, e3] at h
  unfold CmdInv
  split_ifs at h <;> simp only [Outcome.done.injEq] at h <;> subst h <;> simp_all

theorem reach_cmdInv (s : List Nat) (st : State) (h : Reach s st) : CmdInv st :=
  reach_preserves s CmdInv (fun h0 => absurd rfl h0)
    (fun st st' _ _ hb => loopBody_cmdInv s st st' hb) st h

/-- The body throws exactly when it runs a repetition of a command whose id is
none of 1, 2 and 7. -/
theorem loopBody_thrown_iff (s : List Nat) (st : State) (c : Int) :
    loopBody s st = .thrown c ↔
      (readCommand s st).cmd = c ∧ 0 < (readCommand s st).length ∧
        c ≠ 1 ∧ c ≠ 2 ∧ c ≠ 7 := by
  have e3 : ((SEG_CLOSE &&& cmd_mask : Nat) : Int) = 7 := close_id_eq
  simp only [loopBody, dispatch, SEG_MOVETO, SEG_LINETO, e3]
  generalize readCommand s st = st1
  split_ifs with h1 h2 h3
  · simp only [false_iff, reduceCtorEq]
    rintro ⟨rfl, _, h4, h5, _⟩
    rcases h2 with h2 | h2
    · exact h4 (by exact_mod_cast h2)
    · exact h5 (by exact_mod_cast h2)
  · simp only [false_iff, reduceCtorEq]
    rintro ⟨rfl, _, _, _, h6⟩
    exact h6 h3
  · simp only [Outcome.thrown.injEq]
    constructor
    · rintro rfl
      refine ⟨rfl, h1, ?_, ?_, h3⟩
      · intro h; exact h2 (Or.inl (by exact_mod_cast h))
      · intro h; exact h2 (Or.inr (by exact_mod_cast h))
    · rintro ⟨h, _⟩; exact h
  · simp only [false_iff, reduceCtorEq]
    rintro ⟨_, h4, _⟩
    exact h1 h4

theorem readCommand_of_zero (s : List Nat) (st : State) (h : st.length = 0) :
    (readCommand s st).cmd = ((geometryAt s st.k % 8 : Nat) : Int) ∧
    (readCommand s st).length = geometryAt s st.k / 8 := by
  simp only [readCommand, h, if_true, and_cmd_mask, shift_cmd_bits, and_self]

theorem readCommand_of_pos (s : List Nat) (st : State) (h : st.length ≠ 0) :
    readCommand s st = st := by
  simp only [readCommand, h, if_false]

theorem runLoop_thrown_reach (s : List Nat) (c : Int) :
    ∀ st, Reach s st → runLoop s st = .thrown c →
      ∃ st', Reach s st' ∧ st'.k < s.length ∧ loopBody s st' = .thrown c := by
  apply loop_induction s
  intro st ih hreach hrun
  rw [runLoop_eq] at hrun
  by_cases hk : st.k < s.length
  · simp only [hk, if_true] at hrun
    cases hb : loopBody s st with
    | done st1 =>
      rw [hb] at hrun
      exact ih st1 hk hb (Reach.next st st1 hreach hk hb) hrun
    | thrown e =>
      rw [hb] at hrun
      simp only [Outcome.thrown.injEq] at hrun
      subst hrun
      exact ⟨st, hreach, hk, hb⟩
    | outOfFuel => rw [hb] at hrun; cases hrun
  · simp only [hk, if_false, reduceCtorEq] at hrun

theorem decodeFeature_thrown_iff (s : List Nat) (c : Int) :
    decodeFeature s = .thrown c ↔ decodeFeatureState s = .thrown c := by
  rw [decodeFeature_eq]
  cases decodeFeatureState s <;> simp [Outcome.map]

theorem thrown_iff_bad_command (s : List Nat) (c : Int) :
    decodeFeature s = .thrown c ↔
      ∃ i, ReadsCommandAt s i ∧ ((geometryAt s i % 8 : Nat) : Int) = c ∧
        0 < geometryAt s i / 8 ∧ c ≠ 1 ∧ c ≠ 2 ∧ c ≠ 7 := by
  rw [decodeFeature_thrown_iff]
  constructor
  · intro h
    obtain ⟨st, hreach, hk, hb⟩ := runLoop_thrown_reach s c (startState s) Reach.start h
    rw [loopBody_thrown_iff] at hb
    obtain ⟨hc, hl, hne⟩ := hb
    by_cases h0 : st.length = 0
    · obtain ⟨e1, e2⟩ := readCommand_of_zero s st h0
      exact ⟨st.k, ⟨st, hreach, rfl, hk, h0⟩, by rw [← e1, hc], by rw [← e2]; exact hl, hne⟩
    · exfalso
      rw [readCommand_of_pos s st h0] at hc
      have := reach_cmdInv s st hreach h0
      rw [hc] at this
      obtain ⟨n1, n2, n3⟩ := hne
      rcases this with h | h | h
      · exact n1 h
      · exact n2 h
      · exact n3 h
  · rintro ⟨i, ⟨st, hreach, rfl, hk, h0⟩, hc, hl, hne⟩
    rw [← runLoop_of_reach s st hreach]
    apply runLoop_throw s st c hk
    rw [loopBody_thrown_iff]
    obtain ⟨e1, e2⟩ := readCommand_of_zero s st h0
    exact ⟨by rw [e1, hc], by rw [e2]; exact hl, hne⟩

/-! ## A leading zero-repeat command -/

theorem geometryAt_cons_succ (c : Nat) (s : List Nat) (i : Nat) :
    geometryAt (c :: s) (i + 1) = geometryAt s i := by
  simp [geometryAt]

theorem loopBody_shift (c : Nat) (s : List Nat) (st st' : State) (h : ShiftRel st st') :
    OutcomeRel (loopBody (c :: s) st) (loopBody s st') := by
  obtain ⟨h1, h2, h3, h4, h5⟩ := h
  have hg := geometryAt_cons_succ c s st'.k
  by_cases h0 : st'.length = 0
  · have h0' : st.length = 0 := by rw [h2, h0]
    simp only [loopBody, dispatch, readCommand, h0, h0', if_true, h1, hg, h5]
    split_ifs <;> simp_all [OutcomeRel, ShiftRel, bumpEmpty]
  · have h0' : st.length ≠ 0 := by rw [h2]; exact h0
    have hc := h4 h0
    simp only [loopBody, dispatch, readCommand, h0, h0', if_false, h1, h2, h3, hc, h5]
    split_ifs <;> simp_all [OutcomeRel, ShiftRel, bumpEmpty]

theorem runLoop_shift (c : Nat) (s : List Nat) :
    ∀ st' st : State, ShiftRel st st' →
      OutcomeRel (runLoop (c :: s) st) (runLoop s st') := by
  apply loop_induction s
  intro st' ih st h
  have hb := loopBody_shift c s st st' h
  rw [runLoop_eq (c :: s) st, runLoop_eq s st']
  have hk : st.k < (c :: s).length ↔ st'.k < s.length := by
    rw [h.1, List.length_cons]; omega
  by_cases hlt : st'.k < s.length
  · simp only [hlt, hk.mpr hlt, if_true]
    cases hb' : loopBody s st' with
    | done st1' =>
      rw [hb'] at hb
      cases hb1 : loopBody (c :: s) st with
      | done st1 => rw [hb1] at hb; exact ih st1' hlt hb' st1 hb
      | thrown e => rw [hb1] at hb; exact hb.elim
      | outOfFuel => rw [hb1] at hb; exact hb.elim
    | thrown e' =>
      rw [hb'] at hb
      cases hb1 : loopBody (c :: s) st with
      | done st1 => rw [hb1] at hb; exact hb.elim
      | thrown e => rw [hb1] at hb; exact hb
      | outOfFuel => rw [hb1] at hb; exact hb.elim
    | outOfFuel => exact absurd hb' (loopBody_ne_outOfFuel s st')
  · have hlt' : ¬ st.k < (c :: s).length := fun h' => hlt (hk.mp h')
    simp only [hlt, hlt', if_false]
    exact h

theorem loopBody_zero_repeat (s : List Nat) (st : State) (h0 : st.length = 0)
    (hc : geometryAt s st.k >>> cmd_bits = 0) :
    loopBody s st = .done
      { k := st.k + 1, cmd := ((geometryAt s st.k &&& cmd_mask : Nat) : Int)
        length := 0, g_length := 0
        stats := { st.stats with
          num_empty := inc32 st.stats.num_empty
          num_commands := inc32 st.stats.num_commands }
        reads := st.reads ++ [st.k] } := by
  simp only [loopBody, readCommand, dispatch, h0, hc, if_true, Nat.le_refl, gt_iff_lt,
    Nat.lt_irrefl, if_false]

theorem decodeFeature_zero_repeat (c : Nat) (s : List Nat) (hc : c >>> cmd_bits = 0) :
    decodeFeature (c :: s) = (decodeFeature s).map bumpEmpty := by
  have hg : geometryAt (c :: s) (startState (c :: s)).k = c := rfl
  have hb : ∃ st1, loopBody (c :: s) (startState (c :: s)) = .done st1 ∧
      ShiftRel st1 (startState s) := by
    refine ⟨_, loopBody_zero_repeat (c :: s) (startState (c :: s)) rfl (by rw [hg, hc]), ?_⟩
    simp only [ShiftRel, startState, initState, bumpEmpty, Stats.zero, inc32, add32,
      List.length_cons, Stats.mk.injEq, ne_eq, not_true_eq_false,
      false_implies, true_and, and_true]
    omega
  obtain ⟨st1, hb1, hrel⟩ := hb
  have hrun := runLoop_shift c s (startState s) st1 hrel
  rw [decodeFeature_eq, decodeFeature_eq, decodeFeatureState_eq, decodeFeatureState_eq,
    runLoop_step (c :: s) _ st1 (by simp [startState, initState]) hb1]
  cases h1 : runLoop (c :: s) st1 with
  | done a =>
    cases h2 : runLoop s (startState s) with
    | done b =>
      rw [h1, h2] at hrun
      simp only [Outcome.map, Outcome.done.injEq]
      exact hrun.2.2.2.2
    | thrown e => rw [h1, h2] at hrun; exact hrun.elim
    | outOfFuel => rw [h1, h2] at hrun; exact hrun.elim
  | thrown e =>
    cases h2 : runLoop s (startState s) with
    | done b => rw [h1, h2] at hrun; exact hrun.elim
    | thrown e' =>
      rw [h1, h2] at hrun
      simp only [Outcome.map, Outcome.thrown.injEq]
      exact hrun
    | outOfFuel => rw [h1, h2] at hrun; exact hrun.elim
  | outOfFuel => exact absurd h1 (runLoop_ne_outOfFuel (c :: s) st1)

/-! ## The claims -/

/-- C9: when every feature of every layer decodes without error, the summary
of each layer is the componentwise sum modulo 2^32, over the features of that
layer only, of the counters obtained by decoding each feature alone from the
initial decoder state and zero counters; its total_repeated is the sum of the
stream lengths modulo 2^32. -/
theorem layer_is_sum_of_feature_decodes (layers : List (List (List Nat)))
    (hall : ∀ fs ∈ layers, ∀ f ∈ fs, ∃ r, decodeFeature f = .done r) :
    summaryLoop layers = .done (layers.map (fun fs => sumStats (fs.map featureStats))) ∧
    ∀ fs ∈ layers,
      decodeLayer fs = .done (sumStats (fs.map featureStats)) ∧
      (sumStats (fs.map featureStats)).total_repeated =
        (fs.map List.length).sum % 4294967296 :=
  ⟨summaryLoop_sum layers hall, fun fs hfs =>
    ⟨decodeLayer_sum fs (hall fs hfs), sumStats_total_repeated fs (hall fs hfs)⟩⟩

/-- Witness of C9 on a tile of two layers. -/
theorem layer_is_sum_of_feature_decodes_witness :
    summaryLoop [[[9, 0, 0, 15], [9, 4, 4, 26, 8, 8, 0, 8, 8, 0, 15]], [[1]]] =
      .done [⟨15, 5, 2, 3, 2, 0, 2⟩, ⟨1, 1, 0, 0, 0, 1, 0⟩] :=
  (layer_is_sum_of_feature_decodes
    [[[9, 0, 0, 15], [9, 4, 4, 26, 8, 8, 0, 8, 8, 0, 15]], [[1]]]
    (all_decode_of_check _ (by decide))).1.trans (by decide)

/-- C10: at every ClosePath repetition the ring point count g_length is 0, so
for every stream that decodes without error and for every layer whose features
all decode without error the degenerate counter equals the close counter. -/
theorem degenerate_eq_close :
    (∀ (s : List Nat) (st : State), Reach s st → st.k < s.length →
      0 < (readCommand s st).length → (readCommand s st).cmd = 7 →
      (readCommand s st).g_length = 0) ∧
    (∀ (s : List Nat) (r : Stats), decodeFeature s = .done r →
      r.degenerate = r.num_close) ∧
    (∀ (fs : List (List Nat)) (r : Stats), decodeLayer fs = .done r →
      r.degenerate = r.num_close) := by
  refine ⟨?_, ?_, ?_⟩
  · intro s st hr _ _ hc
    have hinv := (reach_closeInv s st hr).2
    unfold readCommand at hc ⊢
    split_ifs at hc ⊢
    · rfl
    · exact hinv (by omega) (by omega)
  · intro s r h
    rw [← decodeLayer_single] at h
    exact featuresLoop_closeInv [s] Stats.zero r rfl h
  · intro fs r h
    exact featuresLoop_closeInv fs Stats.zero r rfl h

/-- Witness of C10 on the stream [9, 0, 0, 23, 9, 0, 0], whose ClosePath round
of repeat count 2 is counted twice as degenerate. -/
theorem degenerate_eq_close_witness :
    decodeFeature [9, 0, 0, 23, 9, 0, 0] = .done ⟨7, 3, 2, 0, 2, 0, 2⟩ ∧
    (⟨7, 3, 2, 0, 2, 0, 2⟩ : Stats).degenerate = (⟨7, 3, 2, 0, 2, 0, 2⟩ : Stats).num_close :=
  ⟨by decide,
   degenerate_eq_close.2.1 [9, 0, 0, 23, 9, 0, 0] ⟨7, 3, 2, 0, 2, 0, 2⟩ (by decide)⟩

theorem moveClosePairs_length (ps : List (Nat × Nat)) :
    (moveClosePairs ps).length = 4 * ps.length := by
  induction ps with
  | nil => rfl
  | cons p ps ih => simp only [moveClosePairs, List.length_cons, ih]; omega

/-- C7: for every list of m coordinate pairs (with the stream length 4m within
the range of the int returned by geometry_size), decoding the stream of the m
blocks [9, x_i, y_i, 15] finishes without error with degenerate = m, close = m,
move_to = m, line_to = 0 and num_commands = 2m (and empty = 0, total = 4m). -/
theorem move_close_pairs_all_degenerate (ps : List (Nat × Nat))
    (hs : IntSized (moveClosePairs ps)) :
    decodeFeature (moveClosePairs ps) = .done
      { total_repeated := 4 * ps.length
        num_commands := 2 * ps.length
        num_move_to := ps.length
        num_line_to := 0
        num_close := ps.length
        num_empty := 0
        degenerate := ps.length } := by
  have hlen := moveClosePairs_length ps
  unfold IntSized at hs
  obtain ⟨st', hrun, hst⟩ := runLoop_moveClosePairs ps [] (startState (moveClosePairs ps))
    rfl rfl (by
      simp only [Stats.Bounded, startState, initState, Stats.zero, add32]
      refine ⟨?_, ?_, ?_, ?_, ?_, ?_, ?_⟩ <;> omega)
  rw [List.nil_append] at hrun
  rw [decodeFeature_eq, decodeFeatureState_eq, hrun]
  simp only [Outcome.map, hst, pairStats, startState, initState, Stats.zero, add32, hlen,
    Outcome.done.injEq, Stats.mk.injEq]
  refine ⟨?_, ?_, ?_, trivial, ?_, trivial, ?_⟩ <;> omega

/-- Witness of C7: the stream [9, 0, 0, 15] gives degenerate = 1. -/
theorem move_close_pairs_all_degenerate_witness :
    decodeFeature [9, 0, 0, 15] = .done ⟨4, 2, 1, 0, 1, 0, 1⟩ :=
  move_close_pairs_all_degenerate [(0, 0)] (by decide)

/-- C5, as stated, fails: the stream [9, 0, 0, 15] decodes without error and
without a read past its end, and 2 * move_to + 2 * line_to + close +
num_commands is 5, not the stream length 4. -/
theorem roundtrip_with_close_fails :
    ∃ st, decodeFeatureState [9, 0, 0, 15] = .done st ∧
      (∀ i ∈ st.reads, i < [9, 0, 0, 15].length) ∧
      2 * st.stats.num_move_to + 2 * st.stats.num_line_to + st.stats.num_close +
        st.stats.num_commands ≠ st.stats.total_repeated :=
  ⟨⟨4, 7, 0, 0, ⟨4, 2, 1, 0, 1, 0, 1⟩, [0, 1, 2, 3]⟩, by decide, by decide, by decide⟩

/-- C5 amended: for every stream (of a length within the range of int) that
decodes without error and without a read at or beyond its end,
2 * move_to + 2 * line_to + num_commands equals the stream length, which is
the value added to total_repeated; with the close counter added the sum
exceeds the length by the close counter. -/
theorem roundtrip_length (s : List Nat) (st : State) (hs : IntSized s)
    (h : decodeFeatureState s = .done st) (hno : ∀ i ∈ st.reads, i < s.length) :
    2 * st.stats.num_move_to + 2 * st.stats.num_line_to + st.stats.num_commands = s.length ∧
    st.stats.total_repeated = s.length ∧
    2 * st.stats.num_move_to + 2 * st.stats.num_line_to + st.stats.num_close +
      st.stats.num_commands = s.length + st.stats.num_close := by
  obtain ⟨_, h1, _, h3, h4⟩ := decodeFeatureState_countInv s hs st h
  have hge := runLoop_exit s (startState s) st h
  have hle : st.k ≤ s.length := by
    by_contra hlt
    have := hno s.length (by rw [h4, List.mem_range]; omega)
    omega
  refine ⟨?_, h3, ?_⟩ <;> omega

/-- Witness of the amended C5 on the stream [9, 0, 0, 15]. -/
theorem roundtrip_length_witness :
    decodeFeatureState [9, 0, 0, 15] =
      .done ⟨4, 7, 0, 0, ⟨4, 2, 1, 0, 1, 0, 1⟩, [0, 1, 2, 3]⟩ ∧
    (2 * 1 + 2 * 0 + 2 = [9, 0, 0, 15].length ∧ 4 = [9, 0, 0, 15].length ∧
      2 * 1 + 2 * 0 + 1 + 2 = [9, 0, 0, 15].length + 1) :=
  ⟨by decide,
   roundtrip_length [9, 0, 0, 15] ⟨4, 7, 0, 0, ⟨4, 2, 1, 0, 1, 0, 1⟩, [0, 1, 2, 3]⟩
    (by decide) (by decide) (by decide)⟩

/-- C1 fails on the code: for the stream [9, 4, 4, 26, 8, 8, 0, 8, 8, 0, 15]
(MoveTo x1, LineTo x3, ClosePath x1) the decode loop ends with the degenerate
counter at 1, although the ring closed has 4 points. -/
theorem four_point_ring_counted_degenerate :
    decodeFeature [9, 4, 4, 26, 8, 8, 0, 8, 8, 0, 15] = .done
      { total_repeated := 11, num_commands := 3, num_move_to := 1, num_line_to := 3
        num_close := 1, num_empty := 0, degenerate := 1 } := by
  decide

/-- C2 fails on the code: for the stream [9, 0, 0, 23], whose last integer is
a ClosePath round of repeat count 2, the decode loop ends with close = 1. -/
theorem trailing_close_repeat_dropped :
    decodeFeature [9, 0, 0, 23] = .done
      { total_repeated := 4, num_commands := 2, num_move_to := 1, num_line_to := 0
        num_close := 1, num_empty := 0, degenerate := 1 } ∧
    decodeFeature [9, 0, 0, 23, 9, 0, 0] = .done
      { total_repeated := 7, num_commands := 3, num_move_to := 2, num_line_to := 0
        num_close := 2, num_empty := 0, degenerate := 2 } := by
  decide

/-- C4 fails on the code: for the stream [9, 5] the decode loop calls
f.geometry with the index 2, which is the stream length, counts the point
(move_to = 1) and ends normally with the cursor at 3. -/
theorem truncated_pair_read_past_end :
    decodeFeatureState [9, 5] = .done
      { k := 3, cmd := 1, length := 0, g_length := 1
        stats :=
          { total_repeated := 2, num_commands := 1, num_move_to := 1, num_line_to := 0
            num_close := 0, num_empty := 0, degenerate := 0 }
        reads := [0, 1, 2] } ∧
    ¬ (∀ i ∈ [0, 1, 2], i < [9, 5].length) := by
  decide

/-- C6, as stated, fails: decoding the 13-element stream does not finish with
the counters of the claim; it throws. -/
theorem worked_example_throws :
    ¬ ∃ r, decodeFeature
        [9, 4, 4, 26, 8, 8, 0, 4294967288, 4294967288, 0, 4294967288, 4294967288, 15] =
          .done r ∧
      r.num_commands = 3 ∧ r.num_move_to = 1 ∧ r.num_line_to = 3 ∧ r.num_close = 1 ∧
      r.degenerate = 0 := by
  have h : decodeFeature
      [9, 4, 4, 26, 8, 8, 0, 4294967288, 4294967288, 0, 4294967288, 4294967288, 15] =
        .thrown 0 := by decide
  rintro ⟨r, hr, _⟩
  rw [h] at hr
  cases hr

/-- C6 amended: in the 13-element stream the LineTo round of repeat 3 consumes
the six integers after 26, so the integer 4294967288 at index 10 is read as a
command integer (id 0, repeat 536870911) and decoding fails with the unknown
command error for id 0; the 11-element stream with exactly three LineTo pairs
finishes without error with num_commands = 3, move_to = 1, line_to = 3 and
close = 1. -/
theorem worked_example_amended :
    decodeFeature
        [9, 4, 4, 26, 8, 8, 0, 4294967288, 4294967288, 0, 4294967288, 4294967288, 15] =
      .thrown 0 ∧
    4294967288 % 8 = 0 ∧ 4294967288 / 8 = 536870911 ∧
    ∃ r, decodeFeature [9, 4, 4, 26, 8, 8, 0, 4294967288, 4294967288, 0, 15] = .done r ∧
      r.total_repeated = 11 ∧ r.num_commands = 3 ∧ r.num_move_to = 1 ∧
      r.num_line_to = 3 ∧ r.num_close = 1 :=
  ⟨by decide, by decide, by decide, ⟨11, 3, 1, 3, 1, 0, 1⟩, by decide, rfl, rfl, rfl, rfl, rfl⟩

/-- C8: for a command integer c in {1, 2, 7} (recognised id, repeat count
zero) and every stream s (with c followed by s of a length within the range
of int), the first iteration on c followed by s reads the one integer c and
leaves no repetition pending, and decoding c followed by s has the outcome of
decoding s alone - the same error if any - with total_repeated, num_commands
and the empty counter each one higher and move_to, line_to, close and
degenerate unchanged. -/
theorem zero_repeat_command (c : Nat) (s : List Nat) (hc : c = 1 ∨ c = 2 ∨ c = 7)
    (hs : IntSized (c :: s)) :
    decodeFeature (c :: s) = (decodeFeature s).map oneMoreEmpty ∧
    ∃ st1, loopBody (c :: s) (startState (c :: s)) = .done st1 ∧
      st1.k = 1 ∧ st1.length = 0 ∧ st1.reads = [0] := by
  have hc' : c >>> cmd_bits = 0 := by
    rcases hc with rfl | rfl | rfl <;> decide
  have hg : geometryAt (c :: s) (startState (c :: s)).k = c := rfl
  refine ⟨?_, _, loopBody_zero_repeat (c :: s) (startState (c :: s)) rfl (by rw [hg, hc']),
    rfl, rfl, rfl⟩
  rw [decodeFeature_zero_repeat c s hc', decodeFeature_eq]
  unfold IntSized at hs
  rw [List.length_cons] at hs
  cases h : decodeFeatureState s with
  | done st =>
    obtain ⟨hk, h1, h2, h3, _⟩ := decodeFeatureState_countInv s (by unfold IntSized; omega) st h
    simp only [Outcome.map, bumpEmpty, oneMoreEmpty, inc32, Outcome.done.injEq,
      Stats.mk.injEq, and_true, true_and]
    refine ⟨?_, ?_, ?_⟩ <;> omega
  | thrown e => rfl
  | outOfFuel => rfl

/-- Witness of C8: the ClosePath command of repeat count zero before the
stream [9, 0, 0, 15]. -/
theorem zero_repeat_command_witness :
    decodeFeature [7, 9, 0, 0, 15] = .done ⟨5, 3, 1, 0, 1, 1, 1⟩ :=
  (zero_repeat_command 7 [9, 0, 0, 15] (by decide) (by decide)).1.trans (by decide)

/-- C3, as stated, fails: in the stream [3] the integer 3 is read as a command
integer, its id is 3, and decoding finishes without error, counting one empty
command. -/
theorem zero_repeat_unknown_id_accepted :
    ReadsCommandAt [3] 0 ∧ geometryAt [3] 0 % 8 = 3 ∧
      decodeFeature [3] = .done ⟨1, 1, 0, 0, 0, 1, 0⟩ :=
  ⟨⟨startState [3], Reach.start, rfl, by decide, rfl⟩, by decide, by decide⟩

/-- C3 amended: decoding a stream fails with the unknown-command error for the
id c, producing no counters, exactly when some integer that the decoder reads
as a command integer has the id c, c is none of 1, 2 and 7, and its repeat
count is not zero; the stream [9, 0, 0, 11] (id 3, repeat 1) fails, and the
stream [3] (id 3, repeat 0) is counted as one empty command. -/
theorem unknown_command_iff_nonzero_repeat :
    (∀ (s : List Nat) (c : Int),
      decodeFeature s = .thrown c ↔
        ∃ i, ReadsCommandAt s i ∧ ((geometryAt s i % 8 : Nat) : Int) = c ∧
          0 < geometryAt s i / 8 ∧ c ≠ 1 ∧ c ≠ 2 ∧ c ≠ 7) ∧
    decodeFeature [9, 0, 0, 11] = .thrown 3 ∧
    decodeFeature [3] = .done ⟨1, 1, 0, 0, 0, 1, 0⟩ :=
  ⟨thrown_iff_bad_command, by decide, by decide⟩

end TileInfo
